import Mathlib

/-!
Verification of immich-pixstar-sync against its specification.

The Python sources are shallowly embedded: dictionaries become association
lists, per-asset side effects become explicit oracles, and the durable store
file becomes an explicit field threaded through the operations.
-/

namespace ImmichPixstarSync

/-! ## State store (src/immich_pixstar_sync/state_store.py)

`StateStore._data` is a `Dict[str, List[str]]` mapping an Immich email to the
list of asset ids already mailed.  We model it as an association list that
preserves Python dict insertion order.
-/

/-- The in-memory payload `_data : Dict[str, List[str]]` of `StateStore`,
as an insertion-ordered association list (Python 3.7+ dicts preserve
insertion order). -/
abbrev ByUser := List (String × List String)

/-- First-match lookup in the association list, mirroring Python dict
lookup (the embedding never creates duplicate keys). -/
def lookupIds : ByUser → String → Option (List String)
  | [], _ => none
  | (k, v) :: rest, email => if k = email then some v else lookupIds rest email

/-- `StateStore.get_seen`: `set(self._data.get(immich_email, []))`.  We keep
the list (its element set is the Python set); membership is what matters. -/
def getSeenData (d : ByUser) (email : String) : List String :=
  (lookupIds d email).getD []

/-- The dict update performed by `StateStore.add_seen`:
`ids = self._data.setdefault(immich_email, [])` followed by
`if asset_id not in ids: ids.append(asset_id)`.  `setdefault` inserts a
missing key at the end of the dict, in insertion order. -/
def addSeenData : ByUser → String → String → ByUser
  | [], email, assetId => [(email, [assetId])]
  | (k, v) :: rest, email, assetId =>
    if k = email then
      (k, if assetId ∈ v then v else v ++ [assetId]) :: rest
    else
      (k, v) :: addSeenData rest email assetId

/-- The durable file as seen by `StateStore._load`, classified by how the
Python code reacts to it:
* `missing`: `self._path.exists()` is false — `_load` returns at once;
* `corrupt`: opening, `json.load`, or the `by_user` comprehension raises
  (unreadable bytes, invalid JSON, wrong inner types) — one `except` block
  catches every such path, prints the condition and resets `_data` to `{}`;
* `nonDict`: valid JSON whose top level is not a dict — silently ignored,
  `_data` keeps its initial empty value;
* `wellFormed`: a JSON dict whose `by_user` member decodes to the given
  mapping (`list(map(str, ids))` is the identity on lists of strings). -/
inductive RawFile where
  | missing
  | corrupt
  | nonDict
  | wellFormed (byUser : ByUser)
deriving DecidableEq, Repr

/-- Result of `StateStore._load`: the in-memory data it leaves behind and
whether the failure print ran. -/
structure LoadResult where
  data : ByUser
  loggedError : Bool
deriving DecidableEq, Repr

/-- `StateStore._load`, total by construction: every failure is caught
inside the method, so construction never raises. -/
def loadState : RawFile → LoadResult
  | .missing => ⟨[], false⟩
  | .corrupt => ⟨[], true⟩
  | .nonDict => ⟨[], false⟩
  | .wellFormed byUser => ⟨byUser, false⟩

/-- The `StateStore` object together with the durable file it maintains.
`durable` is the decoded `by_user` payload of the store file (`none` while
no save has happened and the file is absent), and `flushes` counts the
calls to `_save` (persistence flushes). -/
structure StateStore where
  data : ByUser
  durable : Option ByUser
  flushes : Nat
  loggedLoadError : Bool
deriving DecidableEq, Repr

/-- `StateStore.__init__`: remember the path, start empty, `_load`. -/
def StateStore.init (file : RawFile) : StateStore :=
  let r := loadState file
  { data := r.data
    durable := match file with
      | .wellFormed byUser => some byUser
      | .missing => none
      | _ => none
    flushes := 0
    loggedLoadError := r.loggedError }

/-- `StateStore.get_seen`. -/
def StateStore.getSeen (st : StateStore) (email : String) : List String :=
  getSeenData st.data email

/-- `StateStore.add_seen`: update `_data`, then `_save` unconditionally
(the save runs even when the id was already present).  `_save` serializes
the whole of `_data` into the durable file. -/
def StateStore.addSeen (st : StateStore) (email assetId : String) : StateStore :=
  let d := addSeenData st.data email assetId
  { data := d, durable := some d, flushes := st.flushes + 1
    loggedLoadError := st.loggedLoadError }

/-- A fresh `StateStore` constructed from the current durable file, as a
new process would see it after `add_seen` returned. -/
def StateStore.reload (st : StateStore) : StateStore :=
  StateStore.init (match st.durable with
    | some byUser => .wellFormed byUser
    | none => .missing)

/-! ## Crash model for `StateStore._save` (C3)

`_save` writes the serialized payload to the sibling path
`path.with_suffix(path.suffix + ".tmp")` and then calls
`tmp_path.replace(self._path)`, an atomic rename.  We model the two files
and every point at which the process may be interrupted.
-/

/-- The two paths `_save` touches: the real store file and its temporary
sibling.  `none` means the file does not exist; `some s` is its full
content. -/
structure FsState where
  real : Option String
  tmp : Option String
deriving DecidableEq, Repr

/-- The sibling path used for the temporary file:
`path.with_suffix(path.suffix + ".tmp")` appends `".tmp"` to the final
suffix, e.g. `state.json` becomes `state.json.tmp`. -/
def tmpPathOf (path : String) : String := path ++ ".tmp"

/-- Where execution of `_save` may be interrupted.  `midTmpWrite frag`
stands for the process dying while `json.dump` has emitted only the prefix
`frag` of the payload into the temporary file. -/
inductive SaveCrash where
  | beforeTmpWrite
  | midTmpWrite (frag : String)
  | afterTmpWrite
  | afterRename
deriving DecidableEq, Repr

/-- The file system left behind when `_save fs payload` is interrupted at
the given point.  The rename `tmp_path.replace(self._path)` is atomic: it
either has not happened (the real file is untouched) or has happened in
full (the real file is exactly the new payload). -/
def saveCrashed (fs : FsState) (payload : String) : SaveCrash → FsState
  | .beforeTmpWrite => fs
  | .midTmpWrite frag => { fs with tmp := some frag }
  | .afterTmpWrite => { fs with tmp := some payload }
  | .afterRename => { real := some payload, tmp := none }

/-! ## Favorite fetcher (src/immich_pixstar_sync/immich_client.py)

`ImmichClient.get_favorites` walks `/search/metadata` pages.  We embed the
loop over an abstract page source `fetch : Nat → List α` (the `items` list
the server returns for a given 1-based page number); each call of `fetch`
is one page request.  The Python `while True` loop is given fuel; every
theorem supplies enough fuel for the loop to hit one of its own `break`s.
-/

/-- One iteration state of the `while True` loop in `get_favorites`:
returns the accumulated `all_items` and the number of page requests made.
The loop body, in source order: request the page; `if not items: break`;
extend `all_items`; `if len(items) < page_size: break`; `page += 1`;
`if max_pages is not None and page > max_pages: break`. -/
def getFavoritesGo (fetch : Nat → List α) (pageSize : Nat) (maxPages : Option Nat) :
    Nat → Nat → List α → Nat → List α × Nat
  | 0, _, acc, reqs => (acc, reqs)
  | fuel + 1, page, acc, reqs =>
    let items := fetch page
    if items.isEmpty then (acc, reqs + 1)
    else
      let acc := acc ++ items
      if items.length < pageSize then (acc, reqs + 1)
      else
        let page := page + 1
        match maxPages with
        | some m => if page > m then (acc, reqs + 1)
                    else getFavoritesGo fetch pageSize maxPages fuel page acc (reqs + 1)
        | none => getFavoritesGo fetch pageSize maxPages fuel page acc (reqs + 1)

/-- `ImmichClient.get_favorites(page_size, max_pages)`: start at page 1
with an empty `all_items`. -/
def getFavorites (fetch : Nat → List α) (pageSize : Nat) (maxPages : Option Nat)
    (fuel : Nat) : List α × Nat :=
  getFavoritesGo fetch pageSize maxPages fuel 1 [] 0

/-- A faithful synthetic fetch source holding the items `xs`, served in
pages of size `pageSize`: page `p` (1-based) returns the `p`-th chunk. -/
def pagedSource (xs : List α) (pageSize : Nat) (p : Nat) : List α :=
  (xs.drop ((p - 1) * pageSize)).take pageSize

/-! ## Attachment transformer / mailer (src/immich_pixstar_sync/pixstar_mailer.py)

`PixStarMailer.downscale_for_pixstar` opens the bytes with Pillow, converts
to RGB, shrinks oversize images with `Image.thumbnail`, and re-encodes as
JPEG.  We embed the decoded image by its dimensions and mode; the byte
content of a download is embedded by its length (`len(content)`) together
with the decode result Pillow would produce on it.
-/

def PIXSTAR_MAX_WIDTH : Nat := 1024
def PIXSTAR_MAX_HEIGHT : Nat := 768
def PIXSTAR_JPEG_QUALITY : Nat := 85

/-- `MAX_VIDEO_BYTES = 15 * 1024 * 1024`. -/
def MAX_VIDEO_BYTES : Nat := 15 * 1024 * 1024

/-- A decoded Pillow image: pixel dimensions and color mode. -/
structure Img where
  width : Nat
  height : Nat
  mode : String
deriving DecidableEq, Repr

/-- Raw downloaded bytes, embedded by the two observations the mailer
makes of them: `len(content)` and what `Image.open` yields (`none` when
Pillow raises on undecodable bytes). -/
structure Content where
  size : Nat
  image : Option Img
deriving DecidableEq, Repr

/-- The image produced by the transformer: dimensions plus the color mode
after `im.convert("RGB")`. -/
structure OutImage where
  width : Nat
  height : Nat
  mode : String
deriving DecidableEq, Repr

/-- Pillow's `round_aspect(number, key)` inside `Image.thumbnail`:
`max(min(math.floor(number), math.ceil(number), key=key), 1)`.  Python's
two-argument `min` with a key returns the first argument on a tie. -/
def roundAspect (number : ℚ) (key : ℤ → ℚ) : ℤ :=
  max (if key ⌊number⌋ ≤ key ⌈number⌉ then ⌊number⌋ else ⌈number⌉) 1

/-- The target size `PIL.Image.thumbnail((bw, bh))` computes for an image
of size `(w, h)`: no-op when the box already contains the image, else fit
one side to the box and round the other to preserve the aspect quotient
`w / h` (exact rational arithmetic stands in for Python floats). -/
def thumbnailSize (w h bw bh : Nat) : Nat × Nat :=
  if w ≤ bw ∧ h ≤ bh then (w, h)
  else
    let aspect : ℚ := (w : ℚ) / (h : ℚ)
    if aspect ≤ (bw : ℚ) / (bh : ℚ) then
      ((roundAspect (aspect * bh) (fun n => |aspect - (n : ℚ) / (bh : ℚ)|)).toNat, bh)
    else
      (bw, (roundAspect ((bw : ℚ) / aspect)
              (fun n => if n = 0 then 0 else |aspect - (bw : ℚ) / (n : ℚ)|)).toNat)

/-- `PixStarMailer.downscale_for_pixstar`: decode (raises on undecodable
bytes, hence `Except`), convert to RGB, `thumbnail` only when
`width > PIXSTAR_MAX_WIDTH or height > PIXSTAR_MAX_HEIGHT`, re-encode as
JPEG and return the bytes with mime type `"image/jpeg"`. -/
def downscaleForPixstar (c : Content) : Except Unit (OutImage × String) :=
  match c.image with
  | none => .error ()
  | some img =>
    let dims :=
      if PIXSTAR_MAX_WIDTH < img.width ∨ PIXSTAR_MAX_HEIGHT < img.height then
        thumbnailSize img.width img.height PIXSTAR_MAX_WIDTH PIXSTAR_MAX_HEIGHT
      else (img.width, img.height)
    .ok (⟨dims.1, dims.2, "RGB"⟩, "image/jpeg")

/-- `str.lower()` on the ASCII strings this pipeline handles, character
by character. -/
def lowerStr (s : String) : String := ⟨s.data.map Char.toLower⟩

/-- `str.endswith(t)`. -/
def strEndsWith (s t : String) : Bool := t.data.isSuffixOf s.data

/-- `mime_type.split("/", 1)[0]`, the maintype: everything before the
first slash (every mime string this pipeline builds contains one). -/
def mainTypeOf (mime : String) : String := ⟨mime.data.takeWhile (fun c => c ≠ '/')⟩

/-- `mimetypes.guess_type(filename)` restricted to the extensions this
pipeline can meet; the stdlib lowercases the extension before its table
lookup and returns `None` for unknown extensions. -/
def guessMime (filename : String) : Option String :=
  let f := lowerStr filename
  if strEndsWith f ".jpg" ∨ strEndsWith f ".jpeg" then some "image/jpeg"
  else if strEndsWith f ".png" then some "image/png"
  else if strEndsWith f ".gif" then some "image/gif"
  else if strEndsWith f ".mp4" then some "video/mp4"
  else if strEndsWith f ".mov" then some "video/quicktime"
  else if strEndsWith f ".avi" then some "video/x-msvideo"
  else none

/-- What `PixStarMailer.send_photo` did when it returned normally:
`sent` means the message was built and transmitted over SMTP, `skipped`
means an early `return` ran (no recipients, oversize video, or
unsupported attachment type) and nothing was transmitted. -/
inductive SendResult where
  | sent
  | skipped
deriving DecidableEq, Repr

/-- `PixStarMailer.send_photo`, with the SMTP transmission abstracted to
the boolean `smtpOk` (false means login or `send_message` raises).
Source order: bail out on an empty recipient list; guess the mime type
when the caller passed none (`guessed or "image/jpeg"`); lowercase and
split it; images are unconditionally transformed (a Pillow decode error
propagates to the caller); videos are size-gated by `MAX_VIDEO_BYTES`
and otherwise sent as-is; other types are logged and skipped. -/
def sendPhoto (toAddrs : List String) (filename : String) (content : Content)
    (mimeType : Option String) (smtpOk : Bool) : Except Unit SendResult :=
  if toAddrs.isEmpty then .ok .skipped
  else
    let mime :=
      lowerStr (match mimeType with
        | some m => if m = "" then (guessMime filename).getD "image/jpeg" else m
        | none => (guessMime filename).getD "image/jpeg")
    let maintype := mainTypeOf mime
    if maintype = "image" then
      match downscaleForPixstar content with
      | .error e => .error e
      | .ok _ => if smtpOk then .ok .sent else .error ()
    else if maintype = "video" then
      if MAX_VIDEO_BYTES < content.size then .ok .skipped
      else if smtpOk then .ok .sent else .error ()
    else .ok .skipped

/-! ## Sync engine (src/main.py, `sync_account_once`)

The per-cycle network effects become an explicit environment: the outcome
of `client.get_favorites()`, of `client.download_asset(asset_id)`, and
whether the SMTP transmission for a given asset id succeeds.
-/

/-- The fields of one favorites item that `sync_account_once` reads.
`none` models a missing key (`asset.get(...)` returning `None`). -/
structure Asset where
  id : Option String
  originalFileName : Option String
  deviceAssetId : Option String
deriving DecidableEq, Repr

/-- The slice of `PixStarAccount` the engine uses. -/
structure Account where
  immichEmail : String
  pixstarEmails : List String
deriving DecidableEq, Repr

/-- Outcomes of the effectful calls made during one cycle for one
account.  `.error` stands for the call raising an exception. -/
structure SyncEnv where
  favorites : Except Unit (List Asset)
  download : String → Except Unit Content
  smtpOk : String → Bool

/-- Python truthiness of an optional string: `None` and `""` are falsy. -/
def pyTruthy : Option String → Bool
  | none => false
  | some s => s ≠ ""

/-- Python `a or b` on optional strings. -/
def pyOr (a b : Option String) : Option String := if pyTruthy a then a else b

/-- `asset.get("originalFileName") or asset.get("deviceAssetId") or
f"{asset_id}.jpg"`. -/
def chooseFilename (a : Asset) (assetId : String) : String :=
  (pyOr (pyOr a.originalFileName a.deviceAssetId) (some (assetId ++ ".jpg"))).getD
    (assetId ++ ".jpg")

/-- How one iteration of the per-asset loop ended. -/
inductive AssetOutcome where
  | skippedNoId
  | downloadFailed
  | sendRaised
  | completed (r : SendResult)
deriving DecidableEq, Repr

/-- One iteration of the per-asset loop in `sync_account_once`:
`if not asset_id: continue`; download (a raised exception is logged and
`continue`s); `send_photo` followed — still inside the same `try` —
by `state_store.add_seen(email, asset_id)`; a raised exception is logged
and the loop moves on. -/
def processAsset (env : SyncEnv) (account : Account) (st : StateStore) (a : Asset) :
    StateStore × AssetOutcome :=
  if pyTruthy a.id then
    let assetId := a.id.getD ""
    match env.download assetId with
    | .error _ => (st, .downloadFailed)
    | .ok content =>
      match sendPhoto account.pixstarEmails (chooseFilename a assetId) content none
          (env.smtpOk assetId) with
      | .error _ => (st, .sendRaised)
      | .ok r => (st.addSeen account.immichEmail assetId, .completed r)
  else (st, .skippedNoId)

/-- The per-asset loop over the candidate list, threading the store. -/
def processAssets (env : SyncEnv) (account : Account) :
    StateStore → List Asset → StateStore × List AssetOutcome
  | st, [] => (st, [])
  | st, a :: rest =>
    let r := processAsset env account st a
    let rs := processAssets env account r.1 rest
    (rs.1, r.2 :: rs.2)

/-- The membership test of the diffing comprehension:
`a.get("id") not in seen_ids`, where `seen_ids` is a snapshot set of
strings (so a missing id is never a member). -/
def notSeenFilter (seenIds : List String) (a : Asset) : Bool :=
  match a.id with
  | none => true
  | some s => s ∉ seenIds

/-- The diffing step of `sync_account_once`: forced resend takes every
fetched favorite, normal mode keeps the favorites whose id is not in the
seen-set snapshot. -/
def selectCandidates (force : Bool) (favorites : List Asset)
    (seenIds : List String) : List Asset :=
  if force then favorites else favorites.filter (notSeenFilter seenIds)

/-- `sync_account_once`: fetch (a raised exception is logged and the
account is skipped this cycle), diff against the seen-state snapshot,
then run the per-asset loop.  The early `return` on an empty candidate
list leaves the store untouched, exactly like the empty loop. -/
def syncAccountOnce (env : SyncEnv) (account : Account) (st : StateStore)
    (forceResend : Bool) : StateStore × List AssetOutcome :=
  match env.favorites with
  | .error _ => (st, [])
  | .ok favorites =>
    processAssets env account st
      (selectCandidates forceResend favorites (st.getSeen account.immichEmail))

/-! ## Helper lemmas about the state store -/

lemma addSeenData_eq_of_mem (d : ByUser) (email assetId : String)
    (h : assetId ∈ getSeenData d email) : addSeenData d email assetId = d := by
  induction d with
  | nil => simp [getSeenData, lookupIds] at h
  | cons kv rest ih =>
    obtain ⟨k, v⟩ := kv
    by_cases hk : k = email
    · subst hk
      simp [getSeenData, lookupIds] at h
      simp [addSeenData, h]
    · simp [getSeenData, lookupIds, hk] at h
      simp [addSeenData, hk, ih h]

lemma getSeenData_addSeenData_self (d : ByUser) (email assetId : String) :
    getSeenData (addSeenData d email assetId) email
      = getSeenData d email ++ if assetId ∈ getSeenData d email then [] else [assetId] := by
  induction d with
  | nil => simp [getSeenData, addSeenData, lookupIds]
  | cons kv rest ih =>
    obtain ⟨k, v⟩ := kv
    by_cases hk : k = email
    · subst hk
      by_cases hm : assetId ∈ v <;>
        simp [getSeenData, addSeenData, lookupIds, hm]
    · simpa [getSeenData, addSeenData, lookupIds, hk] using ih

lemma getSeenData_addSeenData_other (d : ByUser) (email assetId e : String)
    (hne : e ≠ email) :
    getSeenData (addSeenData d email assetId) e = getSeenData d e := by
  have hne' : email ≠ e := Ne.symm hne
  induction d with
  | nil => simp [getSeenData, addSeenData, lookupIds, hne']
  | cons kv rest ih =>
    obtain ⟨k, v⟩ := kv
    by_cases hk : k = email
    · subst hk
      simp [getSeenData, addSeenData, lookupIds, hne']
    · by_cases hke : k = e
      · simp [getSeenData, addSeenData, lookupIds, hk, hke, hne, hne']
      · simp [getSeenData, addSeenData, lookupIds, hk, hke, hne, hne']
        simpa [getSeenData, lookupIds, hke] using ih

lemma StateStore.getSeen_addSeen_self (st : StateStore) (email assetId : String) :
    (st.addSeen email assetId).getSeen email
      = st.getSeen email ++ if assetId ∈ st.getSeen email then [] else [assetId] :=
  getSeenData_addSeenData_self st.data email assetId

lemma StateStore.getSeen_addSeen_other (st : StateStore) (email assetId e : String)
    (hne : e ≠ email) :
    (st.addSeen email assetId).getSeen e = st.getSeen e :=
  getSeenData_addSeenData_other st.data email assetId e hne

lemma StateStore.mem_getSeen_addSeen_iff (st : StateStore) (email assetId e x : String) :
    x ∈ (st.addSeen email assetId).getSeen e ↔
      x ∈ st.getSeen e ∨ (e = email ∧ x = assetId) := by
  by_cases he : e = email
  · subst he
    rw [StateStore.getSeen_addSeen_self]
    by_cases hm : assetId ∈ st.getSeen e
    · simp only [hm, if_true, List.append_nil, true_and, eq_self_iff_true]
      constructor
      · exact fun h => Or.inl h
      · rintro (h | ⟨-, rfl⟩)
        · exact h
        · exact hm
    · simp [hm]
  · rw [StateStore.getSeen_addSeen_other st email assetId e he]
    simp [he]

/-! ## Theorems for the individual claims -/

/-- C3: every flush of the store serializes the full payload to the
temporary sibling path and then renames it over the real path; no matter
where `_save` is interrupted — before the temporary write, in the middle
of it, between write and rename, or after the rename — the real store
file holds either the previous complete content or the new complete
payload, never a truncated or mixed one. -/
theorem save_crash_atomic (fs : FsState) (payload : String) (crash : SaveCrash) :
    (saveCrashed fs payload crash).real = fs.real ∨
      (saveCrashed fs payload crash).real = some payload := by
  cases crash <;> simp [saveCrashed]

/-- C8: loading a corrupt or unreadable durable file at construction is
non-fatal (`loadState` is a total function, mirroring the `except` block
that catches every failure): the store starts with every account's
seen-set empty and the condition is logged. -/
theorem corrupt_load_starts_empty :
    ∀ email, (StateStore.init .corrupt).getSeen email = []
      ∧ (StateStore.init .corrupt).loggedLoadError = true := by
  intro email
  exact ⟨rfl, rfl⟩

/-- C4: `add_seen` is idempotent — re-adding a present id leaves the
in-memory `_data` unchanged yet still runs a persistence flush — and
after any `add_seen` a fresh load of the durable file shows the id as
seen. -/
theorem addSeen_idempotent_durable (st : StateStore) (email assetId : String) :
    (assetId ∈ st.getSeen email →
        (st.addSeen email assetId).data = st.data
          ∧ (st.addSeen email assetId).flushes = st.flushes + 1)
    ∧ assetId ∈ ((st.addSeen email assetId).reload).getSeen email := by
  constructor
  · intro h
    exact ⟨addSeenData_eq_of_mem st.data email assetId h, rfl⟩
  · show assetId ∈ getSeenData (addSeenData st.data email assetId) email
    rw [getSeenData_addSeenData_self]
    by_cases hm : assetId ∈ getSeenData st.data email <;> simp [hm]

theorem addSeen_idempotent_durable_witness :
    ((((StateStore.init .missing).addSeen "u@x" "a1").addSeen "u@x" "a1").data
        = (((StateStore.init .missing).addSeen "u@x" "a1")).data)
    ∧ "a1" ∈ (((StateStore.init .missing).addSeen "u@x" "a1").reload).getSeen "u@x" :=
  ⟨((addSeen_idempotent_durable ((StateStore.init .missing).addSeen "u@x" "a1")
      "u@x" "a1").1 (by decide)).1,
   (addSeen_idempotent_durable (StateStore.init .missing) "u@x" "a1").2⟩

lemma getSeen_processAsset_append (env : SyncEnv) (acct : Account)
    (st : StateStore) (a : Asset) (e : String) :
    ∃ t, (processAsset env acct st a).1.getSeen e = st.getSeen e ++ t := by
  unfold processAsset
  by_cases hid : pyTruthy a.id
  · simp only [hid, if_true]
    rcases hdl : env.download (a.id.getD "") with u | content
    · exact ⟨[], by simp [hdl]⟩
    · rcases hsp : sendPhoto acct.pixstarEmails (chooseFilename a (a.id.getD "")) content none
          (env.smtpOk (a.id.getD "")) with u | r
      · exact ⟨[], by simp [hdl, hsp]⟩
      · by_cases he : e = acct.immichEmail
        · exact ⟨_, by
            simp only [hdl, hsp]
            rw [he]
            exact StateStore.getSeen_addSeen_self st acct.immichEmail (a.id.getD "")⟩
        · exact ⟨[], by
            simp only [hdl, hsp]
            simpa using StateStore.getSeen_addSeen_other st acct.immichEmail (a.id.getD "") e he⟩
  · exact ⟨[], by simp [hid]⟩

lemma getSeen_processAssets_append (env : SyncEnv) (acct : Account) :
    ∀ (l : List Asset) (st : StateStore) (e : String),
    ∃ t, (processAssets env acct st l).1.getSeen e = st.getSeen e ++ t := by
  intro l
  induction l with
  | nil => exact fun st e => ⟨[], by simp [processAssets]⟩
  | cons a rest ih =>
    intro st e
    obtain ⟨t1, h1⟩ := getSeen_processAsset_append env acct st a e
    obtain ⟨t2, h2⟩ := ih (processAsset env acct st a).1 e
    exact ⟨t1 ++ t2, by simp [processAssets, h2, h1]⟩

/-- C9: the stored per-account id lists stay duplicate-free and only
grow: `add_seen` appends the id only when it is absent and touches no
other entry, it never removes anything, and every whole sync cycle —
forced resend included — only ever appends to a seen-set. -/
theorem seen_nodup_monotone (st : StateStore) (email assetId : String) :
    ((st.addSeen email assetId).getSeen email
        = st.getSeen email ++ if assetId ∈ st.getSeen email then [] else [assetId])
    ∧ (∀ e, e ≠ email → (st.addSeen email assetId).getSeen e = st.getSeen e)
    ∧ ((∀ e, (st.getSeen e).Nodup) → ∀ e, ((st.addSeen email assetId).getSeen e).Nodup)
    ∧ (∀ (env : SyncEnv) (acct : Account) (force : Bool) (e : String),
        ∃ t, (syncAccountOnce env acct st force).1.getSeen e = st.getSeen e ++ t) := by
  refine ⟨StateStore.getSeen_addSeen_self st email assetId,
    fun e he => StateStore.getSeen_addSeen_other st email assetId e he, ?_, ?_⟩
  · intro hnd e
    by_cases he : e = email
    · subst he
      rw [StateStore.getSeen_addSeen_self]
      by_cases hm : assetId ∈ st.getSeen e
      · simpa [hm] using hnd e
      · simp only [hm, if_false]
        rw [List.nodup_append]
        exact ⟨hnd e, List.nodup_singleton assetId, by
          intro x hx hx'
          simp only [List.mem_singleton] at hx'
          exact hm (hx' ▸ hx)⟩
    · rw [StateStore.getSeen_addSeen_other st email assetId e he]
      exact hnd e
  · intro env acct force e
    unfold syncAccountOnce
    cases env.favorites with
    | error _ => exact ⟨[], by simp⟩
    | ok favorites => exact getSeen_processAssets_append env acct _ st e

theorem seen_nodup_monotone_witness :
    ((((StateStore.init .missing).addSeen "u@x" "a1").addSeen "u@x" "a1").getSeen "u@x").Nodup :=
  (seen_nodup_monotone ((StateStore.init .missing).addSeen "u@x" "a1") "u@x" "a1").2.2.1
    (fun e => by
      by_cases he : e = "u@x"
      · subst he; decide
      · rw [StateStore.getSeen_addSeen_other _ _ _ _ he]
        exact List.nodup_nil)
    "u@x"

lemma getFavoritesGo_paged {α : Type} (P : Nat) (hP : 0 < P) :
    ∀ (fuel : Nat) (xs0 : List α) (p : Nat), 0 < p →
      ∀ (acc : List α) (reqs : Nat),
      (xs0.drop ((p - 1) * P)).length / P + 1 ≤ fuel →
      getFavoritesGo (pagedSource xs0 P) P none fuel p acc reqs
        = (acc ++ xs0.drop ((p - 1) * P),
           reqs + ((xs0.drop ((p - 1) * P)).length / P + 1)) := by
  intro fuel
  induction fuel with
  | zero => exact fun xs0 p hp acc reqs hf => absurd hf (Nat.not_succ_le_zero _)
  | succ n ih =>
    intro xs0 p hp acc reqs hf
    have hfetch : pagedSource xs0 P p = (xs0.drop ((p - 1) * P)).take P := rfl
    by_cases h0 : xs0.drop ((p - 1) * P) = []
    · simp [getFavoritesGo, hfetch, h0]
    · by_cases h1 : (xs0.drop ((p - 1) * P)).length < P
      · have htake : (xs0.drop ((p - 1) * P)).take P = xs0.drop ((p - 1) * P) :=
          List.take_of_length_le (Nat.le_of_lt h1)
        have hdiv : (xs0.drop ((p - 1) * P)).length / P = 0 := Nat.div_eq_of_lt h1
        simp only [getFavoritesGo, hfetch, htake]
        rw [if_neg (by simpa [List.isEmpty_iff] using h0), if_pos h1, hdiv]
      · push_neg at h1
        have htlen : ((xs0.drop ((p - 1) * P)).take P).length = P := by
          rw [List.length_take, Nat.min_eq_left h1]
        have hne : ¬ ((xs0.drop ((p - 1) * P)).take P).isEmpty := by
          rw [List.isEmpty_iff_length_eq_zero, htlen]
          omega
        have hstep : xs0.drop (p * P) = (xs0.drop ((p - 1) * P)).drop P := by
          rw [List.drop_drop]
          obtain ⟨q, rfl⟩ : ∃ q, p = q + 1 := ⟨p - 1, by omega⟩
          congr 1
          simp only [Nat.succ_sub_one]
          ring
        have hdiv : (xs0.drop ((p - 1) * P)).length / P
            = ((xs0.drop ((p - 1) * P)).length - P) / P + 1 :=
          Nat.div_eq_sub_div hP h1
        have hlen' : (xs0.drop (p * P)).length = (xs0.drop ((p - 1) * P)).length - P := by
          rw [hstep, List.length_drop]
        have hsimp : (p + 1 - 1) * P = p * P := by simp
        have hrec := ih xs0 (p + 1) (by omega) (acc ++ (xs0.drop ((p - 1) * P)).take P)
          (reqs + 1) (by rw [hsimp, hlen']; omega)
        rw [hsimp] at hrec
        simp only [getFavoritesGo, hfetch]
        rw [if_neg (by simpa using hne), if_neg (by rw [htlen]; omega), hrec, hstep,
          Prod.mk.injEq]
        refine ⟨by rw [List.append_assoc, List.take_append_drop], ?_⟩
        rw [← hstep, hlen']
        omega

/-- C2 (amended): for a faithful synthetic source holding `N` items in
pages of size `P > 0`, `get_favorites` returns exactly the `N` items in
the source's order, requesting pages sequentially from page 1 and
stopping at the first short or empty page — which takes `N / P + 1` page
requests: `ceil(N/P)` when `P` does not divide `N`, but one extra
trailing empty-page request when `P` divides `N` (including `N = 0`). -/
theorem getFavorites_paged_complete {α : Type} (xs : List α) (P fuel : Nat)
    (hP : 0 < P) (hfuel : xs.length / P + 1 ≤ fuel) :
    getFavorites (pagedSource xs P) P none fuel = (xs, xs.length / P + 1) := by
  have h := getFavoritesGo_paged P hP fuel xs 1 (by omega) [] 0 (by simpa using hfuel)
  simpa [getFavorites] using h

theorem getFavorites_paged_complete_witness :
    getFavorites (pagedSource [1, 2, 3] 2) 2 none 10 = ([1, 2, 3], 2) :=
  getFavorites_paged_complete [1, 2, 3] 2 10 (by decide) (by decide)

/-- C2 counterexample: a source of `N = 1` item with page size `P = 1`
returns the single item but costs 2 page requests — more than
`ceil(N/P) = 1` — because the full first page forces a trailing
empty-page probe.  This falsifies "exactly ceil(N/P) page requests, or
fewer". -/
theorem getFavorites_extra_request :
    (getFavorites (pagedSource [0] 1) 1 none 10).1 = [0]
      ∧ (getFavorites (pagedSource [0] 1) 1 none 10).2 = 2
      ∧ ¬ (getFavorites (pagedSource [0] 1) 1 none 10).2 ≤ (1 + 1 - 1) / 1 := by
  decide

/-- C6: the diffing step of `sync_account_once` selects all fetched
favorites in forced-resend mode, and in normal mode exactly those whose
id is not in the seen-set snapshot, preserving the fetcher's order (the
selection is a sublist of the fetched list). -/
theorem diffing_candidates (favorites : List Asset) (seenIds : List String) :
    selectCandidates true favorites seenIds = favorites
    ∧ (∀ a, a ∈ selectCandidates false favorites seenIds ↔
        a ∈ favorites ∧ ∀ s ∈ seenIds, a.id ≠ some s)
    ∧ List.Sublist (selectCandidates false favorites seenIds) favorites := by
  refine ⟨rfl, ?_, ?_⟩
  · intro a
    rw [selectCandidates, if_neg Bool.false_ne_true, List.mem_filter]
    cases hid : a.id with
    | none => simp [notSeenFilter, hid]
    | some v =>
      simp only [notSeenFilter, hid, decide_eq_true_eq]
      constructor
      · rintro ⟨hmem, hnot⟩
        refine ⟨hmem, fun s hs heq => ?_⟩
        cases Option.some.inj heq
        exact hnot hs
      · rintro ⟨hmem, hall⟩
        exact ⟨hmem, fun hv => hall v hv rfl⟩
  · rw [selectCandidates, if_neg Bool.false_ne_true]
    exact List.filter_sublist favorites

/-- C10: an asset whose `id` is missing or empty is skipped whole by the
per-asset loop (`if not asset_id: continue`): the store is untouched and
the outcome does not depend on the download or SMTP environment at all,
so nothing was downloaded or mailed; and since nothing was recorded and
the loop never records an empty id, such an asset passes the normal-mode
diffing filter again in every later cycle. -/
theorem empty_id_asset_skipped (env env' : SyncEnv) (acct : Account)
    (st : StateStore) (a : Asset) (hid : pyTruthy a.id = false) :
    processAsset env acct st a = (st, .skippedNoId)
    ∧ processAsset env acct st a = processAsset env' acct st a
    ∧ (∀ favorites seenIds, a ∈ favorites → a.id = none →
        a ∈ selectCandidates false favorites seenIds)
    ∧ (∀ favorites seenIds, a ∈ favorites → a.id = some "" → "" ∉ seenIds →
        a ∈ selectCandidates false favorites seenIds)
    ∧ (∀ e, "" ∉ st.getSeen e →
        ∀ force, "" ∉ (syncAccountOnce env acct st force).1.getSeen e) := by
  have hskip : processAsset env acct st a = (st, .skippedNoId) := by
    simp [processAsset, hid]
  have hskip' : processAsset env' acct st a = (st, .skippedNoId) := by
    simp [processAsset, hid]
  refine ⟨hskip, hskip.trans hskip'.symm, ?_, ?_, ?_⟩
  · intro favorites seenIds hmem hnone
    rw [selectCandidates, if_neg Bool.false_ne_true, List.mem_filter]
    exact ⟨hmem, by simp [notSeenFilter, hnone]⟩
  · intro favorites seenIds hmem hempty hno
    rw [selectCandidates, if_neg Bool.false_ne_true, List.mem_filter]
    exact ⟨hmem, by simp [notSeenFilter, hempty, hno]⟩
  · intro e he force
    have key : ∀ (l : List Asset) (st0 : StateStore), "" ∉ st0.getSeen e →
        "" ∉ (processAssets env acct st0 l).1.getSeen e := by
      intro l
      induction l with
      | nil => intro st0 h0; simpa [processAssets] using h0
      | cons b rest ih =>
        intro st0 h0
        have hb : "" ∉ (processAsset env acct st0 b).1.getSeen e := by
          rcases htr : pyTruthy b.id with htr0 | htr1
          · simpa [processAsset, htr] using h0
          · have hbid : b.id.getD "" ≠ "" := by
              cases hbi : b.id with
              | none => rw [hbi] at htr; simp [pyTruthy] at htr
              | some s =>
                rw [hbi] at htr
                simpa [pyTruthy] using htr
            rw [processAsset]
            rw [htr, if_pos rfl]
            rcases hdl : env.download (b.id.getD "") with u | content
            · simpa [hdl] using h0
            · rcases hsp : sendPhoto acct.pixstarEmails (chooseFilename b (b.id.getD ""))
                  content none (env.smtpOk (b.id.getD "")) with u | r
              · simpa [hdl, hsp] using h0
              · simp only [hdl, hsp]
                rw [StateStore.mem_getSeen_addSeen_iff]
                rintro (hc | ⟨-, hc⟩)
                · exact h0 hc
                · exact hbid hc.symm
        simpa [processAssets] using ih (processAsset env acct st0 b).1 hb
    rw [syncAccountOnce]
    cases env.favorites with
    | error u => simpa using he
    | ok favorites => exact key _ st he

theorem empty_id_asset_skipped_witness :
    processAsset
        ⟨.ok [], fun _ => .error (), fun _ => false⟩ ⟨"u@x", ["f@p"]⟩
        (StateStore.init .missing) ⟨none, none, none⟩
      = (StateStore.init .missing, .skippedNoId)
    ∧ (⟨none, none, none⟩ : Asset) ∈
        selectCandidates false [⟨none, none, none⟩] ["a1"] := by
  have h := empty_id_asset_skipped
    ⟨.ok [], fun _ => .error (), fun _ => false⟩
    ⟨.ok [], fun _ => .error (), fun _ => false⟩
    ⟨"u@x", ["f@p"]⟩ (StateStore.init .missing) ⟨none, none, none⟩ (by decide)
  exact ⟨h.1, h.2.2.1 [⟨none, none, none⟩] ["a1"] (by decide) rfl⟩

/-- C1 counterexample: one favorite video asset whose byte size is one
over the 15 MiB cap, with a working SMTP channel.  The cycle skips the
attachment (`send_photo` returns early, nothing is transmitted —
outcome `completed .skipped`) and yet the asset id IS recorded in the
seen-state, contradicting "is skipped and is not marked seen". -/
theorem oversize_video_marked_seen :
    ((syncAccountOnce
        ⟨.ok [⟨some "v1", some "clip.mp4", none⟩],
         fun _ => .ok ⟨MAX_VIDEO_BYTES + 1, none⟩,
         fun _ => true⟩
        ⟨"u@x", ["f@p"]⟩ (StateStore.init .missing) false).2
      = [.completed .skipped])
    ∧ "v1" ∈ (syncAccountOnce
        ⟨.ok [⟨some "v1", some "clip.mp4", none⟩],
         fun _ => .ok ⟨MAX_VIDEO_BYTES + 1, none⟩,
         fun _ => true⟩
        ⟨"u@x", ["f@p"]⟩ (StateStore.init .missing) false).1.getSeen "u@x" := by
  decide

/-- C1 (amended): the per-asset loop records an id immediately after
`send_photo` returns without raising — after a successful transmission
but equally after a silent skip, since the caller cannot tell the two
apart.  For a video asset with working SMTP: a video of exactly
`MAX_VIDEO_BYTES` is transmitted and marked seen; one byte over the cap
is skipped (nothing transmitted) but the asset is still marked seen. -/
theorem video_size_gate_recording (env : SyncEnv) (acct : Account)
    (st : StateStore) (a : Asset) (assetId : String) (c : Content)
    (hid : a.id = some assetId) (hne : assetId ≠ "")
    (hdl : env.download assetId = .ok c)
    (hvid : guessMime (chooseFilename a assetId) = some "video/mp4")
    (hsmtp : env.smtpOk assetId = true)
    (hto : acct.pixstarEmails ≠ []) :
    (processAsset env acct st a
      = (st.addSeen acct.immichEmail assetId,
         .completed (if MAX_VIDEO_BYTES < c.size then .skipped else .sent)))
    ∧ (∀ (env2 : SyncEnv) (st2 : StateStore) (b : Asset),
        (processAsset env2 acct st2 b).1 ≠ st2 →
        ∃ r, (processAsset env2 acct st2 b).2 = .completed r) := by
  constructor
  · have hlow : lowerStr "video/mp4" = "video/mp4" := by decide
    have hhead : mainTypeOf "video/mp4" = "video" := by decide
    have hvi : ("video" : String) ≠ "image" := by decide
    have hsend : sendPhoto acct.pixstarEmails (chooseFilename a assetId) c none
        (env.smtpOk assetId)
        = .ok (if MAX_VIDEO_BYTES < c.size then .skipped else .sent) := by
      by_cases hsz : MAX_VIDEO_BYTES < c.size <;>
        simp [sendPhoto, List.isEmpty_iff, hto, hvid, hlow, hhead, hvi, hsmtp, hsz]
    have htr : pyTruthy a.id = true := by simp [pyTruthy, hid, hne]
    rw [processAsset, htr, if_pos rfl]
    simp only [hid, Option.getD_some, hdl, hsend]
  · intro env2 st2 b hne2
    by_cases hb : pyTruthy b.id
    · rcases hdl2 : env2.download (b.id.getD "") with u | c2
      · exact absurd (by simp [processAsset, hb, hdl2]) hne2
      · rcases hsp2 : sendPhoto acct.pixstarEmails (chooseFilename b (b.id.getD "")) c2 none
            (env2.smtpOk (b.id.getD "")) with u | r
        · exact absurd (by simp [processAsset, hb, hdl2, hsp2]) hne2
        · exact ⟨r, by simp [processAsset, hb, hdl2, hsp2]⟩
    · exact absurd (by simp [processAsset, hb]) hne2

theorem video_size_gate_recording_witness :
    processAsset ⟨.ok [], fun _ => .ok ⟨MAX_VIDEO_BYTES, none⟩, fun _ => true⟩
        ⟨"u@x", ["f@p"]⟩ (StateStore.init .missing) ⟨some "v1", some "clip.mp4", none⟩
      = ((StateStore.init .missing).addSeen "u@x" "v1", .completed .sent) := by
  have h := (video_size_gate_recording
    ⟨.ok [], fun _ => .ok ⟨MAX_VIDEO_BYTES, none⟩, fun _ => true⟩
    ⟨"u@x", ["f@p"]⟩ (StateStore.init .missing) ⟨some "v1", some "clip.mp4", none⟩
    "v1" ⟨MAX_VIDEO_BYTES, none⟩ rfl (by decide) rfl (by decide) rfl (by decide)).1
  simpa using h

/-- C7: one asset's failure does not abort the rest of the cycle.  With
three candidate assets whose second fails download (all unseen, nonempty
distinct ids, image attachments, working SMTP), the first and third are
attempted and delivered and marked seen, while the second is recorded as
a download failure and not marked seen. -/
theorem partial_failure_isolation (acct : Account) (st : StateStore)
    (i1 i2 i3 : String) (env : SyncEnv)
    (henv : env = ⟨.ok [⟨some i1, some "photo.jpg", none⟩,
                        ⟨some i2, some "photo.jpg", none⟩,
                        ⟨some i3, some "photo.jpg", none⟩],
        fun i => if i = i2 then .error () else .ok ⟨1000, some ⟨800, 600, "RGB"⟩⟩,
        fun _ => true⟩)
    (h1 : i1 ≠ "") (h2 : i2 ≠ "") (h3 : i3 ≠ "")
    (h21 : i2 ≠ i1) (h23 : i2 ≠ i3)
    (hs1 : i1 ∉ st.getSeen acct.immichEmail)
    (hs2 : i2 ∉ st.getSeen acct.immichEmail)
    (hs3 : i3 ∉ st.getSeen acct.immichEmail)
    (hto : acct.pixstarEmails ≠ []) :
    ((syncAccountOnce env acct st false).2
        = [.completed .sent, .downloadFailed, .completed .sent])
    ∧ i1 ∈ (syncAccountOnce env acct st false).1.getSeen acct.immichEmail
    ∧ i3 ∈ (syncAccountOnce env acct st false).1.getSeen acct.immichEmail
    ∧ i2 ∉ (syncAccountOnce env acct st false).1.getSeen acct.immichEmail := by
  subst henv
  have hgm : guessMime "photo.jpg" = some "image/jpeg" := by decide
  have hlow : lowerStr "image/jpeg" = "image/jpeg" := by decide
  have hmain : mainTypeOf "image/jpeg" = "image" := by decide
  have hdc : downscaleForPixstar ⟨1000, some ⟨800, 600, "RGB"⟩⟩
      = .ok (⟨800, 600, "RGB"⟩, "image/jpeg") := rfl
  have hsp : sendPhoto acct.pixstarEmails "photo.jpg" ⟨1000, some ⟨800, 600, "RGB"⟩⟩
      none true = .ok .sent := by
    simp [sendPhoto, List.isEmpty_iff, hto, hgm, hlow, hmain, hdc]
  have hcf : ∀ i : String, chooseFilename ⟨some i, some "photo.jpg", none⟩ i
      = "photo.jpg" := fun i => rfl
  have hok : ∀ (st0 : StateStore) (i : String), i ≠ "" → i ≠ i2 →
      processAsset ⟨.ok [⟨some i1, some "photo.jpg", none⟩,
            ⟨some i2, some "photo.jpg", none⟩, ⟨some i3, some "photo.jpg", none⟩],
          fun i => if i = i2 then .error () else .ok ⟨1000, some ⟨800, 600, "RGB"⟩⟩,
          fun _ => true⟩ acct st0 ⟨some i, some "photo.jpg", none⟩
        = (st0.addSeen acct.immichEmail i, .completed .sent) := by
    intro st0 i hne hni2
    simp [processAsset, pyTruthy, hne, hni2, hcf, hsp]
  have hfail : ∀ st0 : StateStore,
      processAsset ⟨.ok [⟨some i1, some "photo.jpg", none⟩,
            ⟨some i2, some "photo.jpg", none⟩, ⟨some i3, some "photo.jpg", none⟩],
          fun i => if i = i2 then .error () else .ok ⟨1000, some ⟨800, 600, "RGB"⟩⟩,
          fun _ => true⟩ acct st0 ⟨some i2, some "photo.jpg", none⟩
        = (st0, .downloadFailed) := by
    intro st0
    simp [processAsset, pyTruthy, h2]
  have hsel : selectCandidates false
      [(⟨some i1, some "photo.jpg", none⟩ : Asset),
       ⟨some i2, some "photo.jpg", none⟩, ⟨some i3, some "photo.jpg", none⟩]
      (st.getSeen acct.immichEmail)
      = [⟨some i1, some "photo.jpg", none⟩,
         ⟨some i2, some "photo.jpg", none⟩, ⟨some i3, some "photo.jpg", none⟩] := by
    simp [selectCandidates, List.filter, notSeenFilter, hs1, hs2, hs3]
  have hrun : syncAccountOnce ⟨.ok [⟨some i1, some "photo.jpg", none⟩,
          ⟨some i2, some "photo.jpg", none⟩, ⟨some i3, some "photo.jpg", none⟩],
        fun i => if i = i2 then .error () else .ok ⟨1000, some ⟨800, 600, "RGB"⟩⟩,
        fun _ => true⟩ acct st false
      = ((st.addSeen acct.immichEmail i1).addSeen acct.immichEmail i3,
         [.completed .sent, .downloadFailed, .completed .sent]) := by
    unfold syncAccountOnce
    simp only [hsel]
    rw [processAssets, hok st i1 h1 (Ne.symm h21)]
    simp only []
    rw [processAssets, hfail]
    simp only []
    rw [processAssets, hok _ i3 h3 (Ne.symm h23)]
    simp only []
    rw [processAssets]
  rw [hrun]
  refine ⟨rfl, ?_, ?_, ?_⟩
  · rw [StateStore.mem_getSeen_addSeen_iff, StateStore.mem_getSeen_addSeen_iff]
    exact Or.inl (Or.inr ⟨rfl, rfl⟩)
  · rw [StateStore.mem_getSeen_addSeen_iff]
    exact Or.inr ⟨rfl, rfl⟩
  · rw [StateStore.mem_getSeen_addSeen_iff, StateStore.mem_getSeen_addSeen_iff]
    rintro ((hc | ⟨-, hc⟩) | ⟨-, hc⟩)
    · exact hs2 hc
    · exact h21 hc
    · exact h23 hc

theorem partial_failure_isolation_witness :
    ((syncAccountOnce ⟨.ok [⟨some "a1", some "photo.jpg", none⟩,
          ⟨some "a2", some "photo.jpg", none⟩, ⟨some "a3", some "photo.jpg", none⟩],
        fun i => if i = "a2" then .error () else .ok ⟨1000, some ⟨800, 600, "RGB"⟩⟩,
        fun _ => true⟩ ⟨"u@x", ["f@p"]⟩ (StateStore.init .missing) false).2
      = [.completed .sent, .downloadFailed, .completed .sent])
    ∧ "a1" ∈ (syncAccountOnce ⟨.ok [⟨some "a1", some "photo.jpg", none⟩,
          ⟨some "a2", some "photo.jpg", none⟩, ⟨some "a3", some "photo.jpg", none⟩],
        fun i => if i = "a2" then .error () else .ok ⟨1000, some ⟨800, 600, "RGB"⟩⟩,
        fun _ => true⟩ ⟨"u@x", ["f@p"]⟩ (StateStore.init .missing) false).1.getSeen "u@x"
    ∧ "a3" ∈ (syncAccountOnce ⟨.ok [⟨some "a1", some "photo.jpg", none⟩,
          ⟨some "a2", some "photo.jpg", none⟩, ⟨some "a3", some "photo.jpg", none⟩],
        fun i => if i = "a2" then .error () else .ok ⟨1000, some ⟨800, 600, "RGB"⟩⟩,
        fun _ => true⟩ ⟨"u@x", ["f@p"]⟩ (StateStore.init .missing) false).1.getSeen "u@x"
    ∧ "a2" ∉ (syncAccountOnce ⟨.ok [⟨some "a1", some "photo.jpg", none⟩,
          ⟨some "a2", some "photo.jpg", none⟩, ⟨some "a3", some "photo.jpg", none⟩],
        fun i => if i = "a2" then .error () else .ok ⟨1000, some ⟨800, 600, "RGB"⟩⟩,
        fun _ => true⟩ ⟨"u@x", ["f@p"]⟩ (StateStore.init .missing) false).1.getSeen "u@x" :=
  partial_failure_isolation ⟨"u@x", ["f@p"]⟩ (StateStore.init .missing) "a1" "a2" "a3"
    _ rfl (by decide) (by decide) (by decide) (by decide) (by decide)
    (by decide) (by decide) (by decide) (by decide)

/-! ## Helper lemmas for the thumbnail geometry (C5) -/

lemma roundAspect_cases (q : ℚ) (key : ℤ → ℚ) :
    roundAspect q key = max ⌊q⌋ 1 ∨ roundAspect q key = max ⌈q⌉ 1 := by
  rw [roundAspect]
  by_cases hk : key ⌊q⌋ ≤ key ⌈q⌉
  · exact Or.inl (by rw [if_pos hk])
  · exact Or.inr (by rw [if_neg hk])

lemma roundAspect_one_le (q : ℚ) (key : ℤ → ℚ) : 1 ≤ roundAspect q key := by
  rw [roundAspect]
  exact le_max_right _ 1

lemma roundAspect_le (q : ℚ) (key : ℤ → ℚ) (m : ℤ)
    (h1 : q ≤ (m : ℚ)) (h2 : 1 ≤ m) : roundAspect q key ≤ m := by
  have hceil : ⌈q⌉ ≤ m := Int.ceil_le.mpr h1
  have hfloor : ⌊q⌋ ≤ m := le_trans (Int.floor_le_ceil q) hceil
  rw [roundAspect]
  by_cases hk : key ⌊q⌋ ≤ key ⌈q⌉
  · rw [if_pos hk]; exact max_le hfloor h2
  · rw [if_neg hk]; exact max_le hceil h2

lemma thumbnailSize_spec (w h : Nat) (hw : 0 < w) (hh : 0 < h)
    (hout : ¬ (w ≤ 1024 ∧ h ≤ 768)) :
    (thumbnailSize w h 1024 768).1 ≤ 1024
    ∧ (thumbnailSize w h 1024 768).2 ≤ 768
    ∧ (thumbnailSize w h 1024 768).1 ≤ w
    ∧ (thumbnailSize w h 1024 768).2 ≤ h
    ∧ 1 ≤ (thumbnailSize w h 1024 768).1
    ∧ 1 ≤ (thumbnailSize w h 1024 768).2
    ∧ (((thumbnailSize w h 1024 768).2 = 768
        ∧ (((thumbnailSize w h 1024 768).1 : ℤ) = max ⌊(w : ℚ) / h * 768⌋ 1
           ∨ ((thumbnailSize w h 1024 768).1 : ℤ) = max ⌈(w : ℚ) / h * 768⌉ 1))
       ∨ ((thumbnailSize w h 1024 768).1 = 1024
        ∧ (((thumbnailSize w h 1024 768).2 : ℤ) = max ⌊(1024 : ℚ) * h / w⌋ 1
           ∨ ((thumbnailSize w h 1024 768).2 : ℤ) = max ⌈(1024 : ℚ) * h / w⌉ 1))) := by
  have hwq : (0:ℚ) < (w:ℚ) := by exact_mod_cast hw
  have hhq : (0:ℚ) < (h:ℚ) := by exact_mod_cast hh
  have hts : thumbnailSize w h 1024 768
      = if (w:ℚ)/(h:ℚ) ≤ (1024:ℚ)/(768:ℚ) then
          ((roundAspect ((w:ℚ)/(h:ℚ) * 768)
              (fun n => |(w:ℚ)/(h:ℚ) - (n:ℚ)/768|)).toNat, 768)
        else
          (1024, (roundAspect ((1024:ℚ)/((w:ℚ)/(h:ℚ)))
              (fun n => if n = 0 then 0 else |(w:ℚ)/(h:ℚ) - (1024:ℚ)/(n:ℚ)|)).toNat) := by
    rw [thumbnailSize, if_neg hout]
    norm_num
  rw [hts]
  by_cases hbr : (w:ℚ)/(h:ℚ) ≤ (1024:ℚ)/(768:ℚ)
  · rw [if_pos hbr]
    have hcross : (w:ℚ) * 768 ≤ 1024 * (h:ℚ) := (div_le_div_iff₀ hhq (by norm_num)).mp hbr
    have hcrossN : w * 768 ≤ 1024 * h := by exact_mod_cast hcross
    have h768 : 768 < h := by omega
    have hq1024 : (w:ℚ)/(h:ℚ) * 768 ≤ 1024 := by
      calc (w:ℚ)/(h:ℚ) * 768 ≤ (1024:ℚ)/(768:ℚ) * 768 :=
            mul_le_mul_of_nonneg_right hbr (by norm_num)
        _ = 1024 := by norm_num
    have hqw : (w:ℚ)/(h:ℚ) * 768 ≤ (w:ℚ) := by
      rw [div_mul_eq_mul_div, div_le_iff₀ hhq]
      have h768q : (768:ℚ) ≤ (h:ℚ) := by exact_mod_cast h768.le
      exact mul_le_mul_of_nonneg_left h768q hwq.le
    have hx1 : 1 ≤ roundAspect ((w:ℚ)/(h:ℚ) * 768)
        (fun n => |(w:ℚ)/(h:ℚ) - (n:ℚ)/768|) := roundAspect_one_le _ _
    have hxle1024 : roundAspect ((w:ℚ)/(h:ℚ) * 768)
        (fun n => |(w:ℚ)/(h:ℚ) - (n:ℚ)/768|) ≤ 1024 :=
      roundAspect_le _ _ 1024 (by exact_mod_cast hq1024) (by norm_num)
    have hxlew : roundAspect ((w:ℚ)/(h:ℚ) * 768)
        (fun n => |(w:ℚ)/(h:ℚ) - (n:ℚ)/768|) ≤ (w:ℤ) :=
      roundAspect_le _ _ w (by exact_mod_cast hqw) (by exact_mod_cast hw)
    refine ⟨by omega, le_refl 768, by omega, h768.le, by omega, by norm_num, ?_⟩
    refine Or.inl ⟨rfl, ?_⟩
    have hxnat : ((roundAspect ((w:ℚ)/(h:ℚ) * 768)
        (fun n => |(w:ℚ)/(h:ℚ) - (n:ℚ)/768|)).toNat : ℤ)
        = roundAspect ((w:ℚ)/(h:ℚ) * 768) (fun n => |(w:ℚ)/(h:ℚ) - (n:ℚ)/768|) :=
      Int.toNat_of_nonneg (by omega)
    rw [hxnat]
    exact roundAspect_cases _ _
  · rw [if_neg hbr]
    push_neg at hbr
    have hcross : (1024:ℚ) * h < (w:ℚ) * 768 := (div_lt_div_iff₀ (by norm_num) hhq).mp hbr
    have hcrossN : 1024 * h < w * 768 := by exact_mod_cast hcross
    have hw1024 : 1024 < w := by omega
    have hqeq : (1024:ℚ)/((w:ℚ)/(h:ℚ)) = 1024 * (h:ℚ)/(w:ℚ) :=
      div_div_eq_mul_div 1024 (w:ℚ) (h:ℚ)
    have hq768 : (1024:ℚ) * h / w ≤ 768 := by
      rw [div_le_iff₀ hwq]
      linarith
    have hqh : (1024:ℚ) * h / w ≤ (h:ℚ) := by
      rw [div_le_iff₀ hwq]
      have hwc : (1024:ℚ) ≤ (w:ℚ) := by exact_mod_cast hw1024.le
      calc (1024:ℚ) * h = (h:ℚ) * 1024 := by ring
        _ ≤ (h:ℚ) * w := mul_le_mul_of_nonneg_left hwc hhq.le
    have hy1 : 1 ≤ roundAspect ((1024:ℚ)/((w:ℚ)/(h:ℚ)))
        (fun n => if n = 0 then 0 else |(w:ℚ)/(h:ℚ) - (1024:ℚ)/(n:ℚ)|) :=
      roundAspect_one_le _ _
    have hyle768 : roundAspect ((1024:ℚ)/((w:ℚ)/(h:ℚ)))
        (fun n => if n = 0 then 0 else |(w:ℚ)/(h:ℚ) - (1024:ℚ)/(n:ℚ)|) ≤ 768 :=
      roundAspect_le _ _ 768 (by rw [hqeq]; exact_mod_cast hq768) (by norm_num)
    have hyleh : roundAspect ((1024:ℚ)/((w:ℚ)/(h:ℚ)))
        (fun n => if n = 0 then 0 else |(w:ℚ)/(h:ℚ) - (1024:ℚ)/(n:ℚ)|) ≤ (h:ℤ) :=
      roundAspect_le _ _ h (by rw [hqeq]; exact_mod_cast hqh) (by exact_mod_cast hh)
    refine ⟨le_refl 1024, by omega, hw1024.le, by omega, by norm_num, by omega, ?_⟩
    refine Or.inr ⟨rfl, ?_⟩
    have hynat : ((roundAspect ((1024:ℚ)/((w:ℚ)/(h:ℚ)))
        (fun n => if n = 0 then 0 else |(w:ℚ)/(h:ℚ) - (1024:ℚ)/(n:ℚ)|)).toNat : ℤ)
        = roundAspect ((1024:ℚ)/((w:ℚ)/(h:ℚ)))
            (fun n => if n = 0 then 0 else |(w:ℚ)/(h:ℚ) - (1024:ℚ)/(n:ℚ)|) :=
      Int.toNat_of_nonneg (by omega)
    rw [hynat, hqeq]
    exact roundAspect_cases _ _

/-- C5: the transformer decodes the image, converts it to the flat
three-channel RGB model, and re-encodes as JPEG; an image already inside
the 1024 x 768 box keeps its dimensions (re-encoded, not resized), and
an oversize image is shrunk — never enlarged — so that both final
dimensions are inside the box and at least 1, and the free dimension is
the floor or the ceiling (clamped to 1) of the exact aspect-preserving
value. -/
theorem downscale_bounds (c : Content) (img : Img) (himg : c.image = some img)
    (hw : 0 < img.width) (hh : 0 < img.height) :
    ∃ out : OutImage, downscaleForPixstar c = .ok (out, "image/jpeg")
      ∧ out.mode = "RGB"
      ∧ (img.width ≤ 1024 ∧ img.height ≤ 768 →
          out.width = img.width ∧ out.height = img.height)
      ∧ (¬ (img.width ≤ 1024 ∧ img.height ≤ 768) →
          out.width ≤ 1024 ∧ out.height ≤ 768
          ∧ out.width ≤ img.width ∧ out.height ≤ img.height
          ∧ 1 ≤ out.width ∧ 1 ≤ out.height
          ∧ ((out.height = 768
              ∧ ((out.width : ℤ) = max ⌊(img.width : ℚ) / img.height * 768⌋ 1
                 ∨ (out.width : ℤ) = max ⌈(img.width : ℚ) / img.height * 768⌉ 1))
             ∨ (out.width = 1024
              ∧ ((out.height : ℤ) = max ⌊(1024 : ℚ) * img.height / img.width⌋ 1
                 ∨ (out.height : ℤ) = max ⌈(1024 : ℚ) * img.height / img.width⌉ 1)))) := by
  by_cases hin : img.width ≤ 1024 ∧ img.height ≤ 768
  · refine ⟨⟨img.width, img.height, "RGB"⟩, ?_, rfl, fun _ => ⟨rfl, rfl⟩,
      fun hcon => absurd hin hcon⟩
    rw [downscaleForPixstar, himg]
    have hcond : ¬ (PIXSTAR_MAX_WIDTH < img.width ∨ PIXSTAR_MAX_HEIGHT < img.height) := by
      rw [PIXSTAR_MAX_WIDTH, PIXSTAR_MAX_HEIGHT]
      omega
    simp only [hcond, if_false, if_neg hcond]
  · obtain ⟨b1, b2, b3, b4, b5, b6, b7⟩ :=
      thumbnailSize_spec img.width img.height hw hh hin
    refine ⟨⟨(thumbnailSize img.width img.height 1024 768).1,
        (thumbnailSize img.width img.height 1024 768).2, "RGB"⟩, ?_, rfl,
      fun hcon => absurd hcon hin, fun _ => ⟨b1, b2, b3, b4, b5, b6, b7⟩⟩
    rw [downscaleForPixstar, himg]
    have hcond : PIXSTAR_MAX_WIDTH < img.width ∨ PIXSTAR_MAX_HEIGHT < img.height := by
      rw [PIXSTAR_MAX_WIDTH, PIXSTAR_MAX_HEIGHT]
      omega
    simp only [if_pos hcond]
    rfl

theorem downscale_bounds_witness :
    ∃ out : OutImage,
      downscaleForPixstar ⟨100, some ⟨2048, 1536, "RGBA"⟩⟩ = .ok (out, "image/jpeg")
      ∧ out.mode = "RGB" ∧ out.width ≤ 1024 ∧ out.height ≤ 768 := by
  obtain ⟨out, h1, h2, -, h4⟩ := downscale_bounds ⟨100, some ⟨2048, 1536, "RGBA"⟩⟩
    ⟨2048, 1536, "RGBA"⟩ rfl (by norm_num) (by norm_num)
  obtain ⟨b1, b2, -⟩ := h4 (by norm_num)
  exact ⟨out, h1, h2, b1, b2⟩

end ImmichPixstarSync
